import Mathlib

/-!
Verification development for the ollama-web-api repository.

The embedding models:
* the frontend NDJSON frame reassembler and field extractor
  (`streamGenerate` in frontend/src/api.ts),
* the chat presentation scheduler and message-buffer operations
  (`Chat.tsx`: `appendToAssistant`, `setAssistantStreaming`,
  `enqueueChunk`, `processQueue`, `handleSend`),
* the backend generate handler `OllamaGenerate`
  (backend/internal/handlers/ollama.go): its check pipeline,
  its upstream relay behaviour and its HTTP-client timeout.

Text is modeled at the decoded-character level (`TextDecoder` with
`stream: true` tolerates multi-byte splits, so byte chunking and
character chunking agree up to held-back trailing bytes).
-/

/-- Decoded text: a list of characters. -/
abbrev Str := List Char

/-! ## A model of JavaScript `JSON.parse`

`streamGenerate` parses each NDJSON line with `JSON.parse`.  We model the
JSON grammar (RFC 8259): values are null, booleans, numbers, strings,
arrays and objects; numbers are modeled as exact rationals. -/

/-- A parsed JSON value.  A number is the exact decimal `m * 10 ^ e`,
kept in canonical form (`m` not divisible by 10 unless the value is 0,
in which case `m = 0` and `e = 0`), so structural equality of `jnum`
coincides with numeric equality of the literals. -/
inductive JVal where
  | jnull
  | jbool (b : Bool)
  | jnum (m : Int) (e : Int)
  | jstr (s : Str)
  | jarr (elems : List JVal)
  | jobj (fields : List (Str × JVal))

/-- JSON insignificant whitespace (RFC 8259: space, tab, LF, CR). -/
def jsonWs (c : Char) : Bool :=
  c = ' ' || c = '\t' || c = '\n' || c = '\r'

/-- Drop leading JSON whitespace. -/
def skipWs : Str → Str
  | [] => []
  | c :: cs => if jsonWs c then skipWs cs else c :: cs

/-- Value of one of the escape characters allowed after a backslash in a
JSON string. -/
def escChar (c : Char) : Option Char :=
  if c = '"' then some '"'
  else if c = '\\' then some '\\'
  else if c = '/' then some '/'
  else if c = 'b' then some '\x08'
  else if c = 'f' then some '\x0c'
  else if c = 'n' then some '\n'
  else if c = 'r' then some '\r'
  else if c = 't' then some '\t'
  else none

/-- Value of a hexadecimal digit. -/
def hexVal (c : Char) : Option Nat :=
  if '0' ≤ c ∧ c ≤ '9' then some (c.toNat - 48)
  else if 'a' ≤ c ∧ c ≤ 'f' then some (c.toNat - 87)
  else if 'A' ≤ c ∧ c ≤ 'F' then some (c.toNat - 55)
  else none

/-- Parse the body of a JSON string after the opening quote; returns the
decoded characters and the rest of the input after the closing quote.
Raw control characters are forbidden, escapes are decoded. -/
def parseStringBody : Str → Option (Str × Str)
  | [] => none
  | '"' :: rest => some ([], rest)
  | '\\' :: 'u' :: a :: b :: c :: d :: rest => do
      let ha ← hexVal a
      let hb ← hexVal b
      let hc ← hexVal c
      let hd ← hexVal d
      let (s, r) ← parseStringBody rest
      pure (Char.ofNat (((ha * 16 + hb) * 16 + hc) * 16 + hd) :: s, r)
  | '\\' :: e :: rest => do
      let ec ← escChar e
      let (s, r) ← parseStringBody rest
      pure (ec :: s, r)
  | c :: rest =>
      if c.toNat < 32 then none
      else do
        let (s, r) ← parseStringBody rest
        pure (c :: s, r)

/-- Numeric value of a list of decimal digits. -/
def digitsVal (ds : Str) : Nat :=
  ds.foldl (fun a c => a * 10 + (c.toNat - 48)) 0

/-- Split off a maximal run of decimal digits. -/
def spanDigits (s : Str) : Str × Str :=
  (s.takeWhile Char.isDigit, s.dropWhile Char.isDigit)

/-- Parse the integer part of a JSON number (leading zeros forbidden). -/
def parseIntPart : Str → Option (Nat × Str)
  | [] => none
  | '0' :: r =>
      match r with
      | [] => some (0, [])
      | d :: _ => if d.isDigit then none else some (0, r)
  | c :: r =>
      if c.isDigit then
        let p := spanDigits (c :: r)
        some (digitsVal p.1, p.2)
      else none

/-- Parse the optional fraction part; returns the fraction digits. -/
def parseFracPart : Str → Option (Str × Str)
  | '.' :: r =>
      let p := spanDigits r
      if p.1 = [] then none else some (p.1, p.2)
  | s => some ([], s)

/-- Parse the optional exponent part. -/
def parseExpPart : Str → Option (Int × Str)
  | [] => some (0, [])
  | c :: r =>
      if c = 'e' ∨ c = 'E' then
        match r with
        | '+' :: r2 =>
            let p := spanDigits r2
            if p.1 = [] then none else some ((digitsVal p.1 : Int), p.2)
        | '-' :: r2 =>
            let p := spanDigits r2
            if p.1 = [] then none else some (-(digitsVal p.1 : Int), p.2)
        | r2 =>
            let p := spanDigits r2
            if p.1 = [] then none else some ((digitsVal p.1 : Int), p.2)
      else some (0, c :: r)

/-- Divide powers of 10 out of a mantissa into the exponent (fuel-bounded). -/
def canon10 : Nat → Int → Int → Int × Int
  | 0, m, e => (m, e)
  | fuel + 1, m, e =>
      if m % 10 = 0 ∧ m ≠ 0 then canon10 fuel (m / 10) (e + 1) else (m, e)

/-- The canonical `(mantissa, exponent)` pair denoting the exact decimal
value of a JSON number literal with the given parts. -/
def numOfParts (neg : Bool) (ip : Nat) (fds : Str) (ex : Int) : Int × Int :=
  let mAbs : Nat := ip * 10 ^ fds.length + digitsVal fds
  if mAbs = 0 then (0, 0)
  else
    let m : Int := if neg then -(mAbs : Int) else (mAbs : Int)
    canon10 mAbs m (ex - fds.length)

/-- Parse a JSON number starting at the first character of the literal. -/
def parseNumber (s : Str) : Option ((Int × Int) × Str) := do
  let (neg, s1) := match s with
    | '-' :: r => (true, r)
    | _ => (false, s)
  let (ip, s2) ← parseIntPart s1
  let (fds, s3) ← parseFracPart s2
  let (ex, s4) ← parseExpPart s3
  pure (numOfParts neg ip fds ex, s4)

mutual

/-- Parse one JSON value (fuel-indexed to bound recursion depth). -/
def parseValue : Nat → Str → Option (JVal × Str)
  | 0, _ => none
  | fuel + 1, s =>
    match skipWs s with
    | 'n' :: 'u' :: 'l' :: 'l' :: r => some (.jnull, r)
    | 't' :: 'r' :: 'u' :: 'e' :: r => some (.jbool true, r)
    | 'f' :: 'a' :: 'l' :: 's' :: 'e' :: r => some (.jbool false, r)
    | '"' :: r => do
        let (str, r2) ← parseStringBody r
        pure (.jstr str, r2)
    | '[' :: r =>
        (match skipWs r with
         | ']' :: r2 => some (.jarr [], r2)
         | r1 => do
             let (es, r2) ← parseElements fuel r1
             pure (.jarr es, r2))
    | '{' :: r =>
        (match skipWs r with
         | '}' :: r2 => some (.jobj [], r2)
         | r1 => do
             let (fs, r2) ← parseMembers fuel r1
             pure (.jobj fs, r2))
    | c :: r =>
        if c = '-' || c.isDigit then do
          let (me, r2) ← parseNumber (c :: r)
          pure (.jnum me.1 me.2, r2)
        else none
    | [] => none

/-- Parse a non-empty comma-separated list of array elements up to the
closing bracket. -/
def parseElements : Nat → Str → Option (List JVal × Str)
  | 0, _ => none
  | fuel + 1, s => do
    let (v, r) ← parseValue fuel s
    match skipWs r with
    | ',' :: r2 => do
        let (vs, r3) ← parseElements fuel r2
        pure (v :: vs, r3)
    | ']' :: r2 => pure ([v], r2)
    | _ => none

/-- Parse a non-empty comma-separated list of object members up to the
closing brace. -/
def parseMembers : Nat → Str → Option (List (Str × JVal) × Str)
  | 0, _ => none
  | fuel + 1, s =>
    match skipWs s with
    | '"' :: r => do
        let (k, r1) ← parseStringBody r
        match skipWs r1 with
        | ':' :: r2 => do
            let (v, r3) ← parseValue fuel r2
            match skipWs r3 with
            | ',' :: r4 => do
                let (ms, r5) ← parseMembers fuel r4
                pure ((k, v) :: ms, r5)
            | '}' :: r4 => pure ([(k, v)], r4)
            | _ => none
        | _ => none
    | _ => none

end

/-- Model of `JSON.parse`: parse one JSON value and require that only
whitespace remains. -/
def parseJson (s : Str) : Option JVal :=
  match parseValue (s.length + 1) s with
  | some (v, r) => if skipWs r = [] then some v else none
  | none => none

/-! ## Frame Reassembler (`streamGenerate`, frontend/src/api.ts)

The reader loop keeps one accumulation buffer.  On each incoming chunk it
appends the decoded text, splits on the newline character, keeps the last
(possibly empty) piece as the new buffer and processes every other piece:
trim, skip if empty, otherwise `JSON.parse` (malformed lines are skipped).
When the stream ends, the trimmed residual buffer gets one final parse
with the same skip policy. -/

/-- Whitespace removed by JavaScript `String.prototype.trim` (the ASCII
part, which is all that NDJSON framing produces). -/
def isWsChar (c : Char) : Bool :=
  c = ' ' || c = '\t' || c = '\n' || c = '\r' || c = '\x0b' || c = '\x0c'

/-- Model of `line.trim()`. -/
def trimStr (s : Str) : Str :=
  ((s.dropWhile isWsChar).reverse.dropWhile isWsChar).reverse

/-- Model of `const lines = buffer.split('\n'); buffer = lines.pop() || ''`:
the completed lines and the trailing open piece. -/
def splitLines : Str → List Str × Str
  | [] => ([], [])
  | c :: cs =>
    let p := splitLines cs
    if c = '\n' then ([] :: p.1, p.2)
    else
      match p.1 with
      | [] => ([], c :: p.2)
      | l :: ls => ((c :: l) :: ls, p.2)

/-- Processing of one completed line: trim, skip when empty, otherwise
attempt `JSON.parse`; a parse failure yields nothing (the line is
dropped and the stream continues). -/
def processLine (line : Str) : Option JVal :=
  let t := trimStr line
  if t = [] then none else parseJson t

/-- Reassembler state: the accumulation buffer and the records emitted
so far (in order). -/
structure ReasmState where
  buffer : Str
  recs : List JVal

/-- One iteration of the reader loop for one arriving chunk. -/
def feed (st : ReasmState) (chunk : Str) : ReasmState :=
  let p := splitLines (st.buffer ++ chunk)
  { buffer := p.2, recs := st.recs ++ p.1.filterMap processLine }

/-- End of stream: one final parse of the residual buffer, with the same
success/skip policy as a completed line. -/
def finishStream (st : ReasmState) : List JVal :=
  st.recs ++ (processLine st.buffer).toList

/-- The reassembler before any bytes arrived. -/
def initState : ReasmState := ⟨[], []⟩

/-- The full record sequence emitted for a stream delivered as the given
chunks, in order. -/
def streamRecords (chunks : List Str) : List JVal :=
  finishStream (chunks.foldl feed initState)

/-! ## Field Extractor

For each record, `streamGenerate` runs
`if (json.response && onChunk) onChunk(json.response)`: the `response`
property of the parsed object, invoked only when truthy. -/

/-- JavaScript truthiness of a JSON value (absent handled by the caller;
`NaN` cannot arise from `JSON.parse`). -/
def truthy : JVal → Bool
  | .jnull => false
  | .jbool b => b
  | .jnum m _ => decide (m ≠ 0)
  | .jstr s => !s.isEmpty
  | .jarr _ => true
  | .jobj _ => true

/-- JavaScript property access on a parsed JSON value: on an object the
last member with the given key wins, anything else has no properties. -/
def getField (j : JVal) (key : Str) : Option JVal :=
  match j with
  | .jobj fs => fs.foldl (fun acc kv => if kv.1 = key then some kv.2 else acc) none
  | _ => none

/-- The fragment a record contributes: its `response` field when present
and truthy, nothing otherwise. -/
def fragOf (j : JVal) : Option JVal :=
  match getField j "response".toList with
  | some v => if truthy v then some v else none
  | none => none

/-- The fragments passed to `onChunk`, in order. -/
def streamFragments (chunks : List Str) : List JVal :=
  (streamRecords chunks).filterMap fragOf

/-- The fragment texts: per the `OllamaResponse` interface the `response`
field is a string, and that string is what `onChunk` receives. -/
def streamChunkTexts (chunks : List Str) : List Str :=
  (streamFragments chunks).filterMap
    (fun v => match v with | .jstr s => some s | _ => none)

/-! ## Backend generate handler (`OllamaGenerate`, handlers/ollama.go)

The handler runs, in order: the API key placed by the `ValidateAPIKey`
middleware, the project lookup by key, the active-project check, body
parsing, the model-assignment check, and only then the upstream call.
There is no validation of emptiness of `model` or `prompt`. -/

/-- `models.OllamaRequest` (Go zero values: an absent JSON field parses
to the empty string / `false`). -/
structure OllamaRequest where
  model : Str
  prompt : Str
  stream : Bool
  images : List Str
deriving DecidableEq

/-- `models.ProjectModel` (fields relevant to the handler). -/
structure ProjectModelR where
  id : Nat
  projectId : Nat
  modelName : Str
deriving DecidableEq

/-- `models.Project` (fields relevant to the handler). -/
structure Project where
  id : Nat
  name : Str
  apiKey : Str
  isActive : Bool
  models : List ProjectModelR
deriving DecidableEq

/-- The outcome of the check pipeline of `OllamaGenerate`:
which error response is returned, or that the request is forwarded
to the upstream engine. -/
inductive GenOutcome where
  | unauthorizedNoKey
  | unauthorizedBadKey
  | forbiddenInactive
  | badRequest
  | forbiddenModel
  | upstream (req : OllamaRequest)
deriving DecidableEq

/-- `database.DB.Where("api_key = ?", apiKey).First(&project)`. -/
def findProject (projects : List Project) (key : Str) : Option Project :=
  projects.find? (fun p => p.apiKey = key)

/-- The check pipeline of `OllamaGenerate`.  `apiKey` is the value the
middleware stored in the context (absent when the type assertion fails);
`body` is the result of `c.BodyParser` (`none` models a parse error). -/
def ollamaGenerate (projects : List Project) (apiKey : Option Str)
    (body : Option OllamaRequest) : GenOutcome :=
  match apiKey with
  | none => .unauthorizedNoKey
  | some key =>
    match findProject projects key with
    | none => .unauthorizedBadKey
    | some project =>
      if !project.isActive then .forbiddenInactive
      else
        match body with
        | none => .badRequest
        | some req =>
          if project.models.any (fun pm => pm.modelName = req.model) then
            .upstream req
          else .forbiddenModel

/-- `models.OllamaResponse`: the struct `json.Unmarshal` targets, with
tags `model`, `created_at`, `response`, `done`. -/
structure OllamaResponseR where
  model : Str
  createdAt : Str
  response : Str
  done : Bool
deriving DecidableEq

/-- Go decoding of one string-typed struct field from a parsed object:
an absent field or a JSON `null` leaves the zero value `""`, a JSON
string sets the field, any other type is an `UnmarshalTypeError`. -/
def fieldStr (fs : List (Str × JVal)) (key : Str) : Option Str :=
  match getField (JVal.jobj fs) key with
  | none => some []
  | some (.jstr s) => some s
  | some .jnull => some []
  | some _ => none

/-- Go decoding of one bool-typed struct field, as in `fieldStr`. -/
def fieldBool (fs : List (Str × JVal)) (key : Str) : Option Bool :=
  match getField (JVal.jobj fs) key with
  | none => some false
  | some (.jbool b) => some b
  | some .jnull => some false
  | some _ => none

/-- Model of `json.Unmarshal(body, &ollamaResp)`: the body must be one
complete JSON value, surrounding whitespace allowed — anything after
the first value is an error, which is exactly what a multi-record
NDJSON body hits.  A top-level object populates the tagged fields
(unknown keys ignored, a later duplicate key wins), a top-level `null`
leaves the zero value, and any other top level fails.  Ollama emits the
exact tag keys, so Go's case-insensitive key fallback is not modeled. -/
def goUnmarshalOllamaResponse (body : Str) : Option OllamaResponseR :=
  match parseJson body with
  | some (.jobj fs) => do
      let m ← fieldStr fs "model".toList
      let ca ← fieldStr fs "created_at".toList
      let r ← fieldStr fs "response".toList
      let d ← fieldBool fs "done".toList
      pure ⟨m, ca, r, d⟩
  | some .jnull => some ⟨[], [], [], false⟩
  | some _ => none
  | none => none

/-- The upstream reply to the forwarded call: HTTP status, the body
chunks delivered on the wire, and whether the body read fails after
those chunks (`io.ReadAll` returning an error). -/
structure UpstreamResp where
  status : Nat
  chunks : List Str
  readErr : Bool
deriving DecidableEq

/-- The one response `OllamaGenerate` hands to the framework after the
upstream call — its four branches: the 500 `Failed to read response`
envelope when the body read fails; the mirrored-status `Ollama API
error` envelope carrying the raw body as message when the upstream
status is not 200; `c.JSON(ollamaResp)` re-marshaling the decoded
single object; `c.Send(body)` with the raw accumulated bytes when
decoding fails. -/
inductive HandlerWrite where
  | readFailed
  | ollamaError (status : Nat) (message : Str)
  | jsonObject (r : OllamaResponseR)
  | raw (body : Str)
deriving DecidableEq

/-- Observable I/O events of the handler after the upstream call is
issued: reads from the upstream body and the single write of the
selected response to the caller. -/
inductive RelayEvent where
  | readChunk (bytes : Str)
  | write (w : HandlerWrite)
deriving DecidableEq

/-- `io.ReadAll(resp.Body)`: consumes every chunk, returning the
concatenation. -/
def readAll (chunks : List Str) : Str := chunks.flatten

/-- The response the handler selects, in the order of ollama.go: the
read-error check, then the status check, then `json.Unmarshal` deciding
between the re-marshaled object and the raw accumulated body. -/
def handlerWriteOf (resp : UpstreamResp) : HandlerWrite :=
  if resp.readErr then .readFailed
  else if resp.status ≠ 200 then .ollamaError resp.status (readAll resp.chunks)
  else
    match goUnmarshalOllamaResponse (readAll resp.chunks) with
    | some r => .jsonObject r
    | none => .raw (readAll resp.chunks)

/-- Event trace of `OllamaGenerate` after the upstream call:
`io.ReadAll` reads the body to completion (one read per arriving chunk,
in order), and only then is the single branch-selected response
written. -/
def ollamaRelay (resp : UpstreamResp) : List RelayEvent :=
  resp.chunks.map RelayEvent.readChunk ++ [RelayEvent.write (handlerWriteOf resp)]

/-- The handler end to end: the relay trace is produced exactly when the
check pipeline dispatches upstream. -/
def dispatchAndRelay (projects : List Project) (apiKey : Option Str)
    (body : Option OllamaRequest) (resp : UpstreamResp) :
    Option (List RelayEvent) :=
  match ollamaGenerate projects apiKey body with
  | .upstream _ => some (ollamaRelay resp)
  | _ => none

/-- Whether a relay event is a write to the caller. -/
def isWrite : RelayEvent → Bool
  | .write _ => true
  | _ => false

/-- The generate handler constructs its HTTP client as
`http.Client{Timeout: 300 * time.Second}` before the `Post`; the request
— in particular its `stream` flag — is not consulted, so the timeout is
the same constant for every generate call. -/
def generateTimeoutSeconds (req : OllamaRequest) : Nat := 300

/-- A demo project: key `key1`, active, with model `llama2` assigned. -/
def demoProject : Project :=
  { id := 1
    name := "demo".toList
    apiKey := "key1".toList
    isActive := true
    models := [{ id := 1, projectId := 1, modelName := "llama2".toList }] }

/-! ## Chat consumer (`Chat.tsx`)

Messages, the append operation, the streaming-flag update, the fragment
queue and the pacing loop. -/

/-- `role: 'user' | 'assistant'`. -/
inductive Role where
  | user
  | assistant
deriving DecidableEq

/-- The `Message` record of `Chat.tsx` (optional fields as `Option`). -/
structure Message where
  id : Str
  role : Role
  text : Str
  streaming : Option Bool
  images : Option (List Str)
deriving DecidableEq

/-- `appendToAssistant`: copy the list, find the first message with the
given id, replace its text by `text + t`; when no message matches, the
list is returned unchanged. -/
def appendToAssistant : List Message → Str → Str → List Message
  | [], _, _ => []
  | m :: ms, i, t =>
    if m.id = i then { m with text := m.text ++ t } :: ms
    else m :: appendToAssistant ms i t

/-- `setAssistantStreaming`: map over the list setting the streaming
flag of every message with the given id. -/
def setAssistantStreaming (msgs : List Message) (i : Str) (b : Bool) :
    List Message :=
  msgs.map (fun x => if x.id = i then { x with streaming := some b } else x)

/-- One entry of the fragment queue: target message id and text chunk. -/
structure QItem where
  id : Str
  chunk : Str
deriving DecidableEq

/-- The appends performed by the pacing loop `processQueue`: pop the
front item and append its chunk to the addressed message, first in,
first out. -/
def processQueue (msgs : List Message) (queue : List QItem) : List Message :=
  queue.foldl (fun ms it => appendToAssistant ms it.id it.chunk) msgs

/-- The queue items produced by `enqueueChunk` for the given fragments
(`if (!chunk) return` drops empty chunks). -/
def enqueuedItems (i : Str) (frags : List Str) : List QItem :=
  (frags.filter (fun f => !f.isEmpty)).map (fun f => ⟨i, f⟩)

/-- The message list after the whole stream has been parsed and every
fragment delivered, before `handleSend`'s `finally` block runs. -/
def clientStreamState (msgs : List Message) (i : Str) (chunks : List Str) :
    List Message :=
  processQueue msgs (enqueuedItems i (streamChunkTexts chunks))

/-- The message list after `handleSend` completes: the `finally` block
runs `setAssistantStreaming(assistantId, false)` once the stream is
over. -/
def handleSendDone (msgs : List Message) (i : Str) (chunks : List Str) :
    List Message :=
  setAssistantStreaming (clientStreamState msgs i chunks) i false

/-- The identity-shaped part of a message: everything except the text
buffer. -/
def msgShape (m : Message) : Str × Role × Option Bool × Option (List Str) :=
  (m.id, m.role, m.streaming, m.images)

/-- `wordDelay = 30`: the fixed pacing delay in milliseconds. -/
def wordDelay : Nat := 30

/-- Idealized timestamps of the appends the pacing loop performs for a
queue of `n` items starting at `t0`: each append happens `wordDelay`
after the previous one (`await new Promise(r => setTimeout(r, wordDelay))`
separates consecutive appends). -/
def appendTimes (t0 n : Nat) : List Nat :=
  (List.range n).map (fun k => t0 + k * wordDelay)

/-! ## Pacing-process state machine (`enqueueChunk` / `processQueue`)

`animatingRef` guards activation: an enqueue starts `processQueue` only
when the flag is clear; the loop clears the flag when the queue drains.
`procs` is ghost instrumentation counting the `processQueue` invocations
that have started and not yet returned. -/

/-- Scheduler state: the fragment queue, the `animatingRef` flag, and
the ghost count of active pacing processes. -/
structure SchedState where
  queue : List QItem
  animating : Bool
  procs : Nat
deriving DecidableEq

/-- `enqueueChunk`: drop empty chunks; push the item; when the flag is
clear, set it and start one `processQueue` invocation. -/
def enqueueChunk (s : SchedState) (it : QItem) : SchedState :=
  if it.chunk.isEmpty then s
  else
    { queue := s.queue ++ [it]
      animating := true
      procs := if s.animating then s.procs else s.procs + 1 }

/-- One scheduling step of an active `processQueue` invocation: with a
non-empty queue it pops the front item (and appends it, not modeled in
this state); with an empty queue the loop exits, clearing the flag. -/
def paceStep (s : SchedState) : SchedState :=
  match s.queue with
  | _ :: rest => { s with queue := rest }
  | [] => { queue := [], animating := false, procs := s.procs - 1 }

/-- The session's transition relation: any enqueue may happen, and any
active pacing process may take a step. -/
inductive SchedStep : SchedState → SchedState → Prop where
  | enqueue (s : SchedState) (it : QItem) : SchedStep s (enqueueChunk s it)
  | pace (s : SchedState) (h : 1 ≤ s.procs) : SchedStep s (paceStep s)

/-- A fresh session: empty queue, flag clear, no pacing process. -/
def initSched : SchedState := ⟨[], false, 0⟩

/-- The states a session can reach. -/
def SchedReachable (s : SchedState) : Prop :=
  Relation.ReflTransGen SchedStep initSched s

/-- One-character step of the reassembler: a newline completes the
current buffer as a line (processed with the per-line policy), any other
character extends the buffer.  `feed` is proved below to be the fold of
this step, which is what makes reassembly chunk-boundary-invariant. -/
def rstep (st : ReasmState) (c : Char) : ReasmState :=
  if c = '\n' then { buffer := [], recs := st.recs ++ (processLine st.buffer).toList }
  else { buffer := st.buffer ++ [c], recs := st.recs }

/-! ## Reassembler lemmas -/

theorem splitLines_snd_noNL (s : Str) : '\n' ∉ (splitLines s).2 := by
  induction s with
  | nil => simp [splitLines]
  | cons c cs ih =>
    simp only [splitLines]
    by_cases h : c = '\n'
    · simpa [h] using ih
    · simp only [if_neg h]
      cases hp : (splitLines cs).1 with
      | nil =>
        simp only [List.mem_cons, not_or]
        exact ⟨fun hc => h hc.symm, ih⟩
      | cons l ls => simpa using ih

theorem splitLines_of_noNL (s : Str) (hs : '\n' ∉ s) : splitLines s = ([], s) := by
  induction s with
  | nil => simp [splitLines]
  | cons c cs ih =>
    simp only [List.mem_cons, not_or] at hs
    have hc : ¬ c = '\n' := fun hh => hs.1 hh.symm
    simp only [splitLines, ih hs.2, if_neg hc]

theorem splitLines_append_newline (u w : Str) (hu : '\n' ∉ u) :
    splitLines (u ++ '\n' :: w) = (u :: (splitLines w).1, (splitLines w).2) := by
  induction u with
  | nil => simp [splitLines]
  | cons c cs ih =>
    simp only [List.mem_cons, not_or] at hu
    have hc : ¬ c = '\n' := fun hh => hu.1 hh.symm
    simp only [List.cons_append, splitLines, if_neg hc]
    rw [List.append_eq, ih hu.2]

theorem feed_nil (st : ReasmState) (h : '\n' ∉ st.buffer) : feed st [] = st := by
  simp [feed, splitLines_of_noNL st.buffer h]

theorem feed_cons (st : ReasmState) (c : Char) (rest : Str)
    (h : '\n' ∉ st.buffer) :
    feed st (c :: rest) = feed (rstep st c) rest := by
  by_cases hc : c = '\n'
  · subst hc
    simp only [feed, rstep, if_pos rfl, splitLines_append_newline st.buffer rest h,
      List.nil_append, List.filterMap_cons]
    cases hpl : processLine st.buffer <;>
      simp [hpl, List.append_assoc]
  · simp only [feed, rstep, if_neg hc]
    have : st.buffer ++ c :: rest = (st.buffer ++ [c]) ++ rest := by
      simp
    rw [this]

theorem rstep_noNL (st : ReasmState) (c : Char) (h : '\n' ∉ st.buffer) :
    '\n' ∉ (rstep st c).buffer := by
  by_cases hc : c = '\n'
  · simp [rstep, hc]
  · simp only [rstep, if_neg hc, List.mem_append, List.mem_singleton, not_or]
    exact ⟨h, fun hh => hc hh.symm⟩

theorem feed_eq_foldl (chunk : Str) (st : ReasmState) (h : '\n' ∉ st.buffer) :
    feed st chunk = chunk.foldl rstep st := by
  induction chunk generalizing st with
  | nil => simpa [List.foldl] using feed_nil st h
  | cons c cs ih =>
    rw [feed_cons st c cs h, List.foldl_cons]
    exact ih (rstep st c) (rstep_noNL st c h)

theorem foldl_rstep_noNL (chunk : Str) (st : ReasmState) (h : '\n' ∉ st.buffer) :
    '\n' ∉ (chunk.foldl rstep st).buffer := by
  induction chunk generalizing st with
  | nil => exact h
  | cons c cs ih => exact ih (rstep st c) (rstep_noNL st c h)

theorem foldl_feed_eq (chunks : List Str) (st : ReasmState)
    (h : '\n' ∉ st.buffer) :
    chunks.foldl feed st = chunks.flatten.foldl rstep st := by
  induction chunks generalizing st with
  | nil => rfl
  | cons c cs ih =>
    rw [List.foldl_cons, List.flatten_cons, List.foldl_append,
      ← feed_eq_foldl c st h]
    have hb : '\n' ∉ (feed st c).buffer := by
      simpa [feed] using splitLines_snd_noNL (st.buffer ++ c)
    rw [feed_eq_foldl c st h] at hb ⊢
    exact ih (c.foldl rstep st) hb

theorem streamRecords_flatten (chunks : List Str) :
    streamRecords chunks = streamRecords [chunks.flatten] := by
  have h0 : '\n' ∉ (initState).buffer := by simp [initState]
  simp only [streamRecords, foldl_feed_eq chunks initState h0, List.foldl_cons,
    List.foldl_nil, feed_eq_foldl chunks.flatten initState h0]

/-! ## Chat lemmas -/

theorem appendToAssistant_shape (msgs : List Message) (i t : Str) :
    (appendToAssistant msgs i t).map msgShape = msgs.map msgShape := by
  induction msgs with
  | nil => rfl
  | cons m ms ih =>
    by_cases h : m.id = i
    · simp [appendToAssistant, h, msgShape]
    · simp [appendToAssistant, h, ih]

theorem appendToAssistant_not_found (msgs : List Message) (i t : Str)
    (h : ∀ m ∈ msgs, m.id ≠ i) : appendToAssistant msgs i t = msgs := by
  induction msgs with
  | nil => rfl
  | cons m ms ih =>
    have hm : m.id ≠ i := h m (List.mem_cons_self m ms)
    simp only [appendToAssistant, if_neg hm]
    rw [ih (fun x hx => h x (List.mem_cons_of_mem m hx))]

theorem appendToAssistant_found (pre post : List Message) (m : Message)
    (i t : Str) (hm : m.id = i) (hpre : ∀ x ∈ pre, x.id ≠ i) :
    appendToAssistant (pre ++ m :: post) i t
      = pre ++ { m with text := m.text ++ t } :: post := by
  induction pre with
  | nil => simp [appendToAssistant, hm]
  | cons x xs ih =>
    have hx : x.id ≠ i := hpre x (List.mem_cons_self x xs)
    simp only [List.cons_append, appendToAssistant, if_neg hx]
    rw [List.append_eq, ih (fun y hy => hpre y (List.mem_cons_of_mem x hy))]

theorem processQueue_shape (msgs : List Message) (queue : List QItem) :
    (processQueue msgs queue).map msgShape = msgs.map msgShape := by
  induction queue generalizing msgs with
  | nil => rfl
  | cons it its ih =>
    simp only [processQueue, List.foldl_cons] at ih ⊢
    rw [ih, appendToAssistant_shape]

theorem processQueue_found (pre post : List Message) (m : Message)
    (items : List QItem) (hpre : ∀ x ∈ pre, x.id ≠ m.id)
    (hit : ∀ it ∈ items, it.id = m.id) :
    processQueue (pre ++ m :: post) items
      = pre ++ { m with text := m.text ++ (items.map QItem.chunk).flatten } :: post := by
  induction items generalizing m with
  | nil =>
    simp only [processQueue, List.foldl_nil, List.map_nil, List.flatten_nil,
      List.append_nil]
  | cons it its ih =>
    have hid : it.id = m.id := hit it (List.mem_cons_self it its)
    simp only [processQueue, List.foldl_cons]
    rw [hid, appendToAssistant_found pre post m m.id it.chunk rfl hpre]
    have step := ih { m with text := m.text ++ it.chunk }
      (by simpa using hpre)
      (fun x hx => by simpa using hit x (List.mem_cons_of_mem it hx))
    simp only [processQueue] at step
    rw [step]
    simp [List.append_assoc]

theorem setAssistantStreaming_mem (msgs : List Message) (i : Str) (b : Bool)
    (m : Message) (hm : m ∈ setAssistantStreaming msgs i b) (hid : m.id = i) :
    m.streaming = some b := by
  rcases List.mem_map.mp hm with ⟨x, _, hx⟩
  by_cases h : x.id = i
  · rw [← hx]
    simp [h]
  · rw [if_neg h] at hx
    exact absurd (hx ▸ hid) h

theorem sched_step_preserves (a b : SchedState) (hstep : SchedStep a b)
    (ih : a.procs = if a.animating then 1 else 0) :
    b.procs = if b.animating then 1 else 0 := by
  cases hstep with
  | enqueue it =>
    cases hc : it.chunk with
    | nil => simpa [enqueueChunk, hc] using ih
    | cons x xs =>
      cases ha : a.animating with
      | true => simp [enqueueChunk, hc, ha, ha ▸ ih]
      | false => simp [enqueueChunk, hc, ha, ha ▸ ih]
  | pace hp =>
    cases hq : a.queue with
    | cons q qs =>
      cases ha : a.animating with
      | true => simp [paceStep, hq, ha, ha ▸ ih]
      | false =>
        rw [ha] at ih
        simp only [if_neg Bool.false_ne_true] at ih
        omega
    | nil =>
      cases ha : a.animating with
      | true =>
        rw [ha] at ih
        simp only [if_pos rfl] at ih
        simp [paceStep, hq, ih]
      | false =>
        rw [ha] at ih
        simp only [if_neg Bool.false_ne_true] at ih
        omega

theorem sched_invariant (s : SchedState) (h : SchedReachable s) :
    s.procs = if s.animating then 1 else 0 := by
  induction h with
  | refl => rfl
  | tail _ hstep ih => exact sched_step_preserves _ _ hstep ih

/-! ## Claim theorems -/

/-- Claim C1: reassembly is chunk-boundary-invariant — for every NDJSON
character sequence, any two ways of splitting it into chunks fed in order
to the reassembly loop of `streamGenerate` yield the identical sequence
of emitted records (and hence of fragments and `onChunk` texts): the
output is a function of the concatenation of the received text only. -/
theorem c1_chunk_invariance (cs1 cs2 : List Str) (h : cs1.flatten = cs2.flatten) :
    streamRecords cs1 = streamRecords cs2 ∧
    streamFragments cs1 = streamFragments cs2 ∧
    streamChunkTexts cs1 = streamChunkTexts cs2 := by
  have hr : streamRecords cs1 = streamRecords cs2 := by
    rw [streamRecords_flatten cs1, streamRecords_flatten cs2, h]
  have hf : streamFragments cs1 = streamFragments cs2 := by
    simp [streamFragments, hr]
  exact ⟨hr, hf, by simp [streamChunkTexts, hf]⟩

/-- Witness for C1 at the spec's concrete example: the two-record NDJSON
text delivered whole, split inside the first object, or split exactly at
the newline gives identical record sequences. -/
theorem c1_chunk_invariance_witness :
    (["\x7b\"response\":\"Hi\",\"done\":false\x7d\n\x7b\"response\":\" there\",\"done\":true\x7d\n".toList].flatten
      = ["\x7b\"respon".toList,
         "se\":\"Hi\",\"done\":false\x7d\n\x7b\"response\":\" there\",\"done\":true\x7d\n".toList].flatten) ∧
    (["\x7b\"response\":\"Hi\",\"done\":false\x7d\n\x7b\"response\":\" there\",\"done\":true\x7d\n".toList].flatten
      = ["\x7b\"response\":\"Hi\",\"done\":false\x7d\n".toList,
         "\x7b\"response\":\" there\",\"done\":true\x7d\n".toList].flatten) ∧
    streamRecords ["\x7b\"response\":\"Hi\",\"done\":false\x7d\n\x7b\"response\":\" there\",\"done\":true\x7d\n".toList]
      = streamRecords ["\x7b\"respon".toList,
          "se\":\"Hi\",\"done\":false\x7d\n\x7b\"response\":\" there\",\"done\":true\x7d\n".toList] ∧
    streamRecords ["\x7b\"response\":\"Hi\",\"done\":false\x7d\n\x7b\"response\":\" there\",\"done\":true\x7d\n".toList]
      = streamRecords ["\x7b\"response\":\"Hi\",\"done\":false\x7d\n".toList,
          "\x7b\"response\":\" there\",\"done\":true\x7d\n".toList] := by
  refine ⟨rfl, rfl, ?_, ?_⟩
  · exact (c1_chunk_invariance _ _ rfl).1
  · exact (c1_chunk_invariance _ _ rfl).1

/-- Claim C5: a completed line that trims to non-empty text but fails to
parse is dropped and the remaining lines are processed unchanged; in
particular the spec's input with `not-json` in the middle yields exactly
the records of the first and third lines. -/
theorem c5_malformed_line_skip :
    (∀ (xs ys : List Str) (bad : Str), trimStr bad ≠ [] →
      parseJson (trimStr bad) = none →
      (xs ++ bad :: ys).filterMap processLine = (xs ++ ys).filterMap processLine) ∧
    streamRecords ["\x7b\"a\":1\x7d\nnot-json\n\x7b\"b\":2\x7d\n".toList] =
      [.jobj [("a".toList, .jnum 1 0)], .jobj [("b".toList, .jnum 2 0)]] := by
  refine ⟨?_, rfl⟩
  intro xs ys bad hne hbad
  have hb : processLine bad = none := by
    simp [processLine, hne, hbad]
  simp [List.filterMap_append, List.filterMap_cons, hb]

/-- Witness for C5: the middle line `not-json` of the spec's example trims
to non-empty text, fails to parse, and dropping it leaves the processing
of the surrounding lines unchanged. -/
theorem c5_malformed_line_skip_witness :
    trimStr "not-json".toList ≠ [] ∧
    parseJson (trimStr "not-json".toList) = none ∧
    (["\x7b\"a\":1\x7d".toList] ++ "not-json".toList :: ["\x7b\"b\":2\x7d".toList]).filterMap processLine
      = (["\x7b\"a\":1\x7d".toList] ++ ["\x7b\"b\":2\x7d".toList]).filterMap processLine := by
  refine ⟨by decide, rfl, ?_⟩
  exact c5_malformed_line_skip.1 _ _ _ (by decide) rfl

/-- Claim C6: when the stream ends, the residual buffer (the text after
the last newline of everything received) gets exactly one final parse
attempt under the same success/skip policy as a completed line; in
particular a trailing record without a newline still yields its record. -/
theorem c6_residual_final_parse :
    (∀ chunks : List Str,
      streamRecords chunks =
        (splitLines chunks.flatten).1.filterMap processLine
          ++ (processLine (splitLines chunks.flatten).2).toList) ∧
    streamRecords ["\x7b\"response\":\"X\",\"done\":true\x7d".toList] =
      [.jobj [("response".toList, .jstr "X".toList), ("done".toList, .jbool true)]] := by
  refine ⟨?_, rfl⟩
  intro chunks
  rw [streamRecords_flatten]
  simp [streamRecords, finishStream, feed, initState]

/-- Counterexample for claim C7: the claim says every parsed record with
`done=true` makes the Field Extractor emit a completion signal for the
addressed message.  In the code `streamGenerate` reads only the
`response` field and never the `done` flag: after the single record
`done:true` of this stream has been parsed and its fragment applied, the
addressed message is still marked streaming — no completion was
signalled by record processing. -/
theorem c7_counterexample :
    clientStreamState [⟨"m".toList, .assistant, [], some true, none⟩]
        "m".toList ["\x7b\"response\":\"hi\",\"done\":true\x7d\n".toList]
      = [⟨"m".toList, .assistant, "hi".toList, some true, none⟩] := rfl

/-- Claim C7 as amended: the client emits no per-record completion — the
extractor ignores the `done` flag, and record processing never changes
any field but the text buffer (so nothing is ever set back to
streaming); completion is signalled exactly once, when the stream ends
and `handleSend`'s `finally` block clears the streaming flag of the
addressed message. -/
theorem c7_completion_on_stream_end (msgs : List Message) (i : Str)
    (chunks : List Str) :
    (clientStreamState msgs i chunks).map msgShape = msgs.map msgShape ∧
    (∀ m ∈ handleSendDone msgs i chunks, m.id = i → m.streaming = some false) := by
  constructor
  · exact processQueue_shape msgs (enqueuedItems i (streamChunkTexts chunks))
  · intro m hm hid
    exact setAssistantStreaming_mem _ _ _ m hm hid

/-- Witness for C7 (amended): at a concrete stream, the delivered message
is present in the final state with its streaming flag cleared. -/
theorem c7_completion_on_stream_end_witness :
    (⟨"m".toList, .assistant, "hi".toList, some false, none⟩ : Message) ∈
      handleSendDone [⟨"m".toList, .assistant, [], some true, none⟩]
        "m".toList ["\x7b\"response\":\"hi\",\"done\":true\x7d\n".toList] ∧
    (⟨"m".toList, .assistant, "hi".toList, some false, none⟩ : Message).streaming
      = some false := by
  have hm : (⟨"m".toList, .assistant, "hi".toList, some false, none⟩ : Message) ∈
      handleSendDone [⟨"m".toList, .assistant, [], some true, none⟩]
        "m".toList ["\x7b\"response\":\"hi\",\"done\":true\x7d\n".toList] := by
    rw [show handleSendDone [⟨"m".toList, .assistant, [], some true, none⟩]
        "m".toList ["\x7b\"response\":\"hi\",\"done\":true\x7d\n".toList]
      = [⟨"m".toList, .assistant, "hi".toList, some false, none⟩] from rfl]
    exact List.mem_singleton.mpr rfl
  exact ⟨hm, (c7_completion_on_stream_end
    [⟨"m".toList, .assistant, [], some true, none⟩] "m".toList
    ["\x7b\"response\":\"hi\",\"done\":true\x7d\n".toList]).2 _ hm rfl⟩

/-- Claim C8: for a sequence of fragments enqueued for one message, the
pacing loop appends them first-in-first-out, so the message's final text
is its previous text followed by the concatenation of the fragments in
enqueue order while every other message is untouched; the k-th append
happens at `t0 + k * wordDelay`, hence no earlier than `wordDelay`
after the prior append. -/
theorem c8_pacing_order (t0 : Nat) (pre post : List Message) (m : Message)
    (items : List QItem) (hpre : ∀ x ∈ pre, x.id ≠ m.id)
    (hit : ∀ it ∈ items, it.id = m.id) :
    processQueue (pre ++ m :: post) items
      = pre ++ { m with text := m.text ++ (items.map QItem.chunk).flatten } :: post ∧
    (∀ k, k < items.length →
      (appendTimes t0 items.length)[k]? = some (t0 + k * wordDelay)) ∧
    (∀ k, k + 1 < items.length →
      t0 + k * wordDelay + wordDelay ≤ t0 + (k + 1) * wordDelay) := by
  refine ⟨processQueue_found pre post m items hpre hit, ?_, ?_⟩
  · intro k hk
    simp [appendTimes, List.getElem?_map, List.getElem?_range hk]
  · intro k _
    have : (k + 1) * wordDelay = k * wordDelay + wordDelay := by ring
    omega

/-- Witness for C8: fragments `a`, `b`, `c` enqueued for one message
produce final text `abc`, and the second append time is `wordDelay`
after the first. -/
theorem c8_pacing_order_witness :
    processQueue [⟨"m".toList, .assistant, [], some true, none⟩]
        [⟨"m".toList, "a".toList⟩, ⟨"m".toList, "b".toList⟩, ⟨"m".toList, "c".toList⟩]
      = [⟨"m".toList, .assistant, "abc".toList, some true, none⟩] ∧
    (appendTimes 0 3)[1]? = some 30 := by
  have h := c8_pacing_order 0 [] []
    ⟨"m".toList, .assistant, [], some true, none⟩
    [⟨"m".toList, "a".toList⟩, ⟨"m".toList, "b".toList⟩, ⟨"m".toList, "c".toList⟩]
    (by decide) (by decide)
  refine ⟨?_, ?_⟩
  · have h1 := h.1
    simpa using h1
  · have h2 := h.2.1 1 (by decide)
    simpa [wordDelay] using h2

/-- Claim C9: at most one pacing loop is active at every reachable point
of a session; enqueuing while the loop is idle starts exactly one pacing
process, and enqueuing while one runs starts none. -/
theorem c9_single_pacing_process (s : SchedState) (h : SchedReachable s) :
    s.procs ≤ 1 ∧
    (s.animating = false → ∀ it : QItem, it.chunk ≠ [] →
      (enqueueChunk s it).procs = s.procs + 1 ∧ (enqueueChunk s it).procs = 1) ∧
    (s.animating = true → ∀ it : QItem, (enqueueChunk s it).procs = s.procs) := by
  have inv := sched_invariant s h
  refine ⟨?_, ?_, ?_⟩
  · rw [inv]
    cases s.animating <;> simp
  · intro ha it hc
    have he : it.chunk.isEmpty = false := by
      simpa [List.isEmpty_iff] using hc
    rw [ha] at inv
    simp only [if_neg Bool.false_ne_true] at inv
    constructor <;> simp [enqueueChunk, he, ha, inv]
  · intro ha it
    by_cases hcn : it.chunk.isEmpty
    · simp [enqueueChunk, hcn]
    · simp only [Bool.not_eq_true] at hcn
      simp [enqueueChunk, hcn, ha]

/-- Witness for C9: in a fresh session (reachable by zero steps) the
process count is at most one, and a first enqueue starts exactly one
pacing process. -/
theorem c9_single_pacing_process_witness :
    initSched.procs ≤ 1 ∧
    (enqueueChunk initSched ⟨"m".toList, "a".toList⟩).procs = 1 := by
  have h := c9_single_pacing_process initSched Relation.ReflTransGen.refl
  exact ⟨h.1, (h.2.1 rfl ⟨"m".toList, "a".toList⟩ (by decide)).2⟩

/-- Claim C10: appending text `t` for id `i` leaves the list unchanged
when no message has id `i`; when the (first) message with id `i` exists
its text becomes its previous text followed by `t` while its other
fields and all other messages are unchanged. -/
theorem c10_append_frame_effect (msgs : List Message) (i t : Str) :
    ((∀ m ∈ msgs, m.id ≠ i) → appendToAssistant msgs i t = msgs) ∧
    (∀ pre m post, msgs = pre ++ m :: post → m.id = i →
      (∀ x ∈ pre, x.id ≠ i) →
      appendToAssistant msgs i t = pre ++ { m with text := m.text ++ t } :: post) := by
  refine ⟨fun h => appendToAssistant_not_found msgs i t h, ?_⟩
  intro pre m post hdecomp hid hpre
  rw [hdecomp]
  exact appendToAssistant_found pre post m i t hid hpre

/-- Witness for C10: in a two-message list, appending to the second
message updates exactly its text; appending for an absent id changes
nothing. -/
theorem c10_append_frame_effect_witness :
    appendToAssistant
        [⟨"a".toList, .user, "q".toList, none, none⟩,
         ⟨"b".toList, .assistant, "x".toList, some true, none⟩]
        "b".toList "y".toList
      = [⟨"a".toList, .user, "q".toList, none, none⟩,
         ⟨"b".toList, .assistant, "xy".toList, some true, none⟩] ∧
    appendToAssistant [⟨"a".toList, .user, "q".toList, none, none⟩]
        "z".toList "y".toList
      = [⟨"a".toList, .user, "q".toList, none, none⟩] := by
  constructor
  · have h := (c10_append_frame_effect
      [⟨"a".toList, .user, "q".toList, none, none⟩,
       ⟨"b".toList, .assistant, "x".toList, some true, none⟩]
      "b".toList "y".toList).2
      [⟨"a".toList, .user, "q".toList, none, none⟩]
      ⟨"b".toList, .assistant, "x".toList, some true, none⟩ [] rfl rfl
      (by decide)
    simpa using h
  · exact (c10_append_frame_effect _ _ _).1 (by decide)

/-- The unmarshal model at the two single-and-multi-object bodies the
relay branches on: one record followed by a trailing newline decodes
(so the handler re-marshals it via `c.JSON`), and a two-record NDJSON
body fails after the first value (so the handler sends the raw bytes). -/
theorem goUnmarshal_cases :
    goUnmarshalOllamaResponse
        "\x7b\"model\":\"llama2\",\"created_at\":\"t\",\"response\":\"X\",\"done\":true\x7d\n".toList
      = some ⟨"llama2".toList, "t".toList, "X".toList, true⟩ ∧
    goUnmarshalOllamaResponse
        "\x7b\"response\":\"a\"\x7d\n\x7b\"response\":\"b\",\"done\":true\x7d\n".toList
      = none :=
  ⟨rfl, rfl⟩

/-- Counterexample for claim C2: a `stream=true` request that passes the
API-key, active-project and model-assignment checks, whose upstream
reply is a two-chunk, two-record NDJSON body with status 200.  The
handler's only write to the caller happens after both chunks have been
read (`io.ReadAll` before any response) and carries the accumulation of
the complete body (raw, since the multi-record body fails
`json.Unmarshal`) — the handler does wait for and accumulate the full
body before forwarding anything. -/
theorem c2_counterexample :
    dispatchAndRelay [demoProject] (some "key1".toList)
        (some ⟨"llama2".toList, "hi".toList, true, []⟩)
        ⟨200, ["\x7b\"response\":\"a\"\x7d\n".toList,
               "\x7b\"response\":\"b\",\"done\":true\x7d\n".toList], false⟩
      = some
        [.readChunk "\x7b\"response\":\"a\"\x7d\n".toList,
         .readChunk "\x7b\"response\":\"b\",\"done\":true\x7d\n".toList,
         .write (.raw ("\x7b\"response\":\"a\"\x7d\n".toList
           ++ "\x7b\"response\":\"b\",\"done\":true\x7d\n".toList))] := rfl

/-- Claim C2 as amended: for every request the check pipeline dispatches
upstream (streaming or not) and every upstream reply, the handler reads
the entire body to completion and then performs exactly one write, the
branch-selected response, with every read preceding it; on a successful
read of a 200 reply the write is the raw accumulated bytes exactly when
the body fails to decode as one `OllamaResponse` object (a multi-record
NDJSON stream in particular), and the re-marshaled object when it
decodes. -/
theorem c2_buffered_relay (ps : List Project) (key : Option Str)
    (body : Option OllamaRequest) (req : OllamaRequest) (resp : UpstreamResp)
    (h : ollamaGenerate ps key body = .upstream req) :
    dispatchAndRelay ps key body resp = some (ollamaRelay resp) ∧
    (ollamaRelay resp).filter isWrite = [RelayEvent.write (handlerWriteOf resp)] ∧
    (ollamaRelay resp).dropLast = resp.chunks.map RelayEvent.readChunk ∧
    (resp.readErr = false → resp.status = 200 →
      goUnmarshalOllamaResponse (readAll resp.chunks) = none →
      handlerWriteOf resp = .raw (readAll resp.chunks)) ∧
    (resp.readErr = false → resp.status = 200 →
      ∀ r, goUnmarshalOllamaResponse (readAll resp.chunks) = some r →
        handlerWriteOf resp = .jsonObject r) := by
  refine ⟨?_, ?_, ?_, ?_, ?_⟩
  · simp [dispatchAndRelay, h]
  · have hnone : (resp.chunks.map RelayEvent.readChunk).filter isWrite = [] := by
      induction resp.chunks with
      | nil => rfl
      | cons c cs ih => simpa [isWrite] using ih
    simp [ollamaRelay, List.filter_append, hnone, isWrite]
  · simp [ollamaRelay, List.dropLast_concat]
  · intro he hs hu
    simp [handlerWriteOf, he, hs, hu]
  · intro he hs r hr
    simp [handlerWriteOf, he, hs, hr]

/-- Witness for C2 (amended): at a concrete dispatched request with a
two-chunk two-record upstream body delivered without read error at
status 200, the trace has one write, last, and its payload is the raw
accumulated body. -/
theorem c2_buffered_relay_witness :
    ollamaGenerate [demoProject] (some "key1".toList)
        (some ⟨"llama2".toList, "hi".toList, true, []⟩)
      = .upstream ⟨"llama2".toList, "hi".toList, true, []⟩ ∧
    (ollamaRelay ⟨200, ["\x7b\"response\":\"a\"\x7d\n".toList,
        "\x7b\"response\":\"b\",\"done\":true\x7d\n".toList], false⟩).filter isWrite
      = [RelayEvent.write (handlerWriteOf ⟨200,
          ["\x7b\"response\":\"a\"\x7d\n".toList,
           "\x7b\"response\":\"b\",\"done\":true\x7d\n".toList], false⟩)] ∧
    handlerWriteOf ⟨200, ["\x7b\"response\":\"a\"\x7d\n".toList,
        "\x7b\"response\":\"b\",\"done\":true\x7d\n".toList], false⟩
      = .raw (readAll ["\x7b\"response\":\"a\"\x7d\n".toList,
          "\x7b\"response\":\"b\",\"done\":true\x7d\n".toList]) := by
  have h : ollamaGenerate [demoProject] (some "key1".toList)
      (some ⟨"llama2".toList, "hi".toList, true, []⟩)
    = .upstream ⟨"llama2".toList, "hi".toList, true, []⟩ := rfl
  have hc := c2_buffered_relay [demoProject] (some "key1".toList)
    (some ⟨"llama2".toList, "hi".toList, true, []⟩) _
    ⟨200, ["\x7b\"response\":\"a\"\x7d\n".toList,
           "\x7b\"response\":\"b\",\"done\":true\x7d\n".toList], false⟩ h
  exact ⟨h, hc.2.1, hc.2.2.2.1 rfl rfl rfl⟩

/-- Counterexample for claim C3: a parseable request whose `prompt` is
empty but whose model is assigned to the active project is dispatched to
the upstream engine — no `ValidationError`/400 occurs and the upstream
call is made; an empty `model` yields 403 (model not assigned), not 400.
The handler performs no emptiness validation of `model` or `prompt`. -/
theorem c3_counterexample :
    ollamaGenerate [demoProject] (some "key1".toList)
        (some ⟨"llama2".toList, [], true, []⟩)
      = .upstream ⟨"llama2".toList, [], true, []⟩ ∧
    ollamaGenerate [demoProject] (some "key1".toList)
        (some ⟨"llama2".toList, [], true, []⟩) ≠ .badRequest ∧
    ollamaGenerate [demoProject] (some "key1".toList)
        (some ⟨[], "hi".toList, false, []⟩)
      = .forbiddenModel := by
  exact ⟨rfl, by decide, rfl⟩

/-- Claim C3 as amended: the handler returns 400 exactly when the body
fails to parse; a parseable request whose model is not assigned to the
project (an empty model included) gets 403 with no upstream call; a
parseable request whose model is assigned is dispatched upstream even
when its prompt (or model text) is empty — there is no emptiness
validation. -/
theorem c3_no_emptiness_validation (ps : List Project) (key : Str)
    (p : Project) (req : OllamaRequest)
    (hfind : findProject ps key = some p) (hactive : p.isActive = true) :
    ollamaGenerate ps (some key) none = .badRequest ∧
    ((p.models.any (fun pm => pm.modelName = req.model)) = false →
      ollamaGenerate ps (some key) (some req) = .forbiddenModel) ∧
    ((p.models.any (fun pm => pm.modelName = req.model)) = true →
      ollamaGenerate ps (some key) (some req) = .upstream req) := by
  refine ⟨?_, ?_, ?_⟩
  · simp [ollamaGenerate, hfind, hactive]
  · intro hm
    simp [ollamaGenerate, hfind, hactive, hm]
  · intro hm
    simp [ollamaGenerate, hfind, hactive, hm]

/-- Witness for C3 (amended): on the demo project, an unparseable body
gives 400, and a parseable body with empty prompt and assigned model is
dispatched upstream. -/
theorem c3_no_emptiness_validation_witness :
    findProject [demoProject] "key1".toList = some demoProject ∧
    demoProject.isActive = true ∧
    ollamaGenerate [demoProject] (some "key1".toList) none = .badRequest ∧
    ollamaGenerate [demoProject] (some "key1".toList)
        (some ⟨"llama2".toList, [], true, []⟩)
      = .upstream ⟨"llama2".toList, [], true, []⟩ := by
  have h := c3_no_emptiness_validation [demoProject] "key1".toList demoProject
    ⟨"llama2".toList, [], true, []⟩ rfl rfl
  exact ⟨rfl, rfl, h.1, h.2.2 (by decide)⟩

/-- Counterexample for claim C4: the generate handler's timeout for a
`stream=false` call equals its timeout for a `stream=true` call — both
are the same constant 300 seconds, so the two bounds are not distinct
and no separate short budget exists for non-streaming calls. -/
theorem c4_counterexample :
    generateTimeoutSeconds ⟨"llama2".toList, "hi".toList, false, []⟩
      = generateTimeoutSeconds ⟨"llama2".toList, "hi".toList, true, []⟩ ∧
    generateTimeoutSeconds ⟨"llama2".toList, "hi".toList, false, []⟩ = 300 :=
  ⟨rfl, rfl⟩

/-- Claim C4 as amended: a single fixed timeout of 300 seconds governs
every generate call, independently of the request's `stream` flag. -/
theorem c4_single_timeout (req : OllamaRequest) :
    generateTimeoutSeconds req = 300 := rfl
